import Mathlib

/-!
Verification of the yactfr decoding virtual machine (vm.hpp) against its
specification.  The C++ code is shallowly embedded: `std::uint64_t`
arithmetic is modelled on `Nat` with an explicit `% 2 ^ 64` wherever the
machine word can wrap, bitwise operators map to `Nat.land` / `Nat.lor` /
shifts, exceptions map to `Except` (or an explicit `Option` error
component), and pointers to procedures are modelled as abstract numeric
identifiers.
-/

namespace Yactfr

/-- Embeds `SIZE_UNSET = std::numeric_limits<Size>::max()` (vm.hpp line 33). -/
def SIZE_UNSET : Nat := 2 ^ 64 - 1

/-- Embeds `SAVED_VAL_UNSET = std::numeric_limits<std::uint64_t>::max()` (vm.hpp line 34). -/
def SAVED_VAL_UNSET : Nat := 2 ^ 64 - 1

/-- Embeds `enum class VmState` (vm.hpp lines 37-53). -/
inductive VmState where
  | BEGIN_PKT
  | BEGIN_PKT_CONTENT
  | END_PKT_CONTENT
  | END_PKT
  | BEGIN_ER
  | END_ER
  | EXEC_INSTR
  | EXEC_ARRAY_INSTR
  | READ_UUID_BYTE
  | READ_SUBSTR_UNTIL_NULL
  | READ_SUBSTR
  | END_STR
  | SET_TRACE_TYPE_UUID
  | CONTINUE_SKIP_PADDING_BITS
  | CONTINUE_SKIP_CONTENT_PADDING_BITS
deriving DecidableEq

/-- Embeds `yactfr::ByteOrder` (an enum with big- and little-endian values,
referenced by `VmPos::lastBo` and `ReadBitArrayInstr::bo()`). -/
inductive ByteOrder where
  | Little
  | Big
deriving DecidableEq

/-- Embeds `VmStackFrame` (vm.hpp lines 56-79): the procedure (as an abstract
identifier), the index of the next instruction to execute within it, the state
when the frame was created, and the remaining array elements to read. -/
structure VmStackFrame where
  procId : Nat
  it : Nat
  parentState : VmState
  remElems : Nat
deriving DecidableEq

/-- Models the `elems` scratch struct of `VmPos` (vm.hpp lines 240-270): the
pre-allocated element records.  Only the field the verified claims inspect is
given explicitly (the selector value recorded in the
variant-beginning elements); the remaining pre-allocated element records are
abstracted into one opaque `scratch` component. -/
structure ElemsScratch where
  varSelVal : Int
  scratch : Nat
deriving DecidableEq

/-- Embeds `VmPos` (vm.hpp lines 85-322): the whole state of the yactfr VM
except for data-source buffering.  `lastIntVal` is the 64-bit storage of the
last decoded integer (its unsigned view `lastIntVal.u`); procedure pointers
are abstract identifiers (`none` embeds `nullptr`); the stack is stored
top-first. -/
structure VmPos where
  curPktOffsetInElemSeqBits : Nat
  headOffsetInCurPktBits : Nat
  elems : ElemsScratch
  theState : VmState
  postSkipBitsState : VmState
  postEndStrState : VmState
  lastBo : Option ByteOrder
  remBitsToSkip : Nat
  lastIntVal : Nat
  curId : Nat
  pktProc : Nat
  curDsPktProc : Option Nat
  curErProc : Option Nat
  uuid : List Nat
  curExpectedPktTotalLenBits : Nat
  curExpectedPktContentLenBits : Nat
  stack : List VmStackFrame
  savedVals : List Nat
  defClkVal : Nat
deriving DecidableEq

/-- Embeds `VmPos::headOffsetInElemSeqBits` (vm.hpp lines 208-211). -/
def VmPos.headOffsetInElemSeqBits (pos : VmPos) : Nat :=
  pos.curPktOffsetInElemSeqBits + pos.headOffsetInCurPktBits

/-- The value of `a - b` computed on `std::uint64_t` operands `a, b < 2 ^ 64`
(wraps around on underflow). -/
def u64sub (a b : Nat) : Nat :=
  (a + 2 ^ 64 - b) % 2 ^ 64

/-- Embeds `VmPos::remContentBitsInPkt` (vm.hpp lines 203-206):
`curExpectedPktContentLenBits - headOffsetInCurPktBits` on `std::uint64_t`. -/
def VmPos.remContentBitsInPkt (pos : VmPos) : Nat :=
  u64sub pos.curExpectedPktContentLenBits pos.headOffsetInCurPktBits

/-- Embeds `VmPos::resetForNewPkt` (vm.hpp lines 213-225). -/
def VmPos.resetForNewPkt (pos : VmPos) : VmPos :=
  { pos with
    headOffsetInCurPktBits := 0
    theState := VmState.BEGIN_PKT
    lastBo := none
    curDsPktProc := none
    curErProc := none
    curExpectedPktTotalLenBits := SIZE_UNSET
    curExpectedPktContentLenBits := SIZE_UNSET
    stack := []
    defClkVal := 0
    savedVals := pos.savedVals.map (fun _ => SAVED_VAL_UNSET) }

/-- Embeds `VmPos::updateDefClkVal` (vm.hpp lines 167-201).  The one addition
that can overflow a 64-bit machine word carries an explicit `% 2 ^ 64`;
`~newValMask` on a 64-bit word is `2 ^ 64 - 1 - newValMask`.  Returns the
updated position together with the returned clock value. -/
def VmPos.updateDefClkVal (pos : VmPos) (len : Nat) : VmPos × Nat :=
  if len = 64 then
    ({ pos with defClkVal := pos.lastIntVal }, pos.lastIntVal)
  else
    let newValMask := (1 <<< len) - 1
    let curValMasked := pos.defClkVal &&& newValMask
    let curVal0 :=
      if pos.lastIntVal < curValMasked then (pos.defClkVal + (newValMask + 1)) % 2 ^ 64
      else pos.defClkVal
    let curVal1 := curVal0 &&& (2 ^ 64 - 1 - newValMask)
    let curVal2 := curVal1 ||| pos.lastIntVal
    ({ pos with defClkVal := curVal2 }, curVal2)

/-- Embeds `VmPos::stackPush` (vm.hpp lines 102-105) together with the
`VmStackFrame` constructor (lines 58-63): pushes a frame whose cursor is at
the beginning of the procedure and whose parent state is the current state. -/
def VmPos.stackPush (pos : VmPos) (procId : Nat) : VmPos :=
  { pos with stack := { procId := procId, it := 0, parentState := pos.theState, remElems := 0 } :: pos.stack }

/-- Embeds `VmPos::gotoNextInstr` (vm.hpp lines 126-129): advances the top
frame's instruction cursor.  The source asserts a non-empty stack; an empty
stack is left unchanged here. -/
def VmPos.gotoNextInstr (pos : VmPos) : VmPos :=
  match pos.stack with
  | [] => pos
  | f :: rest => { pos with stack := { f with it := f.it + 1 } :: rest }

/-- Embeds `ItInfos` (vm.hpp lines 324-376): the iterator's mark and offset. -/
structure ItInfos where
  mark : Nat
  offset : Nat
deriving DecidableEq

/-- Embeds `Vm::_updateIt` (vm.hpp lines 822-827): sets the iterator's offset
to the given value and increments its mark (the current-element pointer is not
modelled). -/
def updateIt (it : ItInfos) (offset : Nat) : ItInfos :=
  { mark := it.mark + 1, offset := offset }

/-- Embeds `Vm::_updateItCurOffset` (vm.hpp lines 829-834): like `_updateIt`
with the position's element-sequence head offset. -/
def updateItCurOffset (pos : VmPos) (it : ItInfos) : ItInfos :=
  updateIt it pos.headOffsetInElemSeqBits

/-- Embeds `Vm::_resetItMark` (vm.hpp lines 842-845). -/
def resetItMark (it : ItInfos) : ItInfos :=
  { it with mark := 0 }

/-- Embeds the position and iterator effects of `Vm::_stateEndPkt` (vm.hpp
lines 636-660): captures the element-sequence offset, makes it the offset of
the next packet, zeroes the in-packet head offset, emits the packet-end
element at the captured offset and goes to `BEGIN_PKT`.  The buffer-window
readjustment of the source only touches buffering fields that live outside
`VmPos` and is not modelled. -/
def stateEndPkt (pos : VmPos) (it : ItInfos) : VmPos × ItInfos :=
  let offset := pos.headOffsetInElemSeqBits
  let pos' := { pos with
    curPktOffsetInElemSeqBits := offset
    headOffsetInCurPktBits := 0
    theState := VmState.BEGIN_PKT }
  (pos', updateIt it offset)

/-- Embeds the position and iterator effects of `Vm::_stateBeginPkt` (vm.hpp
lines 576-596) on the path where the element sequence has remaining data:
reset the iterator's mark, reset the position for a new packet, emit the
packet-beginning element, load the preamble procedure and go to
`BEGIN_PKT_CONTENT`. -/
def stateBeginPkt (pos : VmPos) (it : ItInfos) : VmPos × ItInfos :=
  let it' := resetItMark it
  let pos' := pos.resetForNewPkt
  let it'' := updateItCurOffset pos' it'
  let pos'' := pos'.stackPush pos'.pktProc
  ({ pos'' with theState := VmState.BEGIN_PKT_CONTENT }, it'')

/-- Embeds `Vm::_consumeExistingBits` (vm.hpp lines 953-957), the only place
in the sources where `headOffsetInCurPktBits` is incremented:
`headOffsetInCurPktBits += bitsToConsume`. -/
def consumeExistingBits (pos : VmPos) (bitsToConsume : Nat) : VmPos :=
  { pos with headOffsetInCurPktBits := pos.headOffsetInCurPktBits + bitsToConsume }

/-- One mutation of the decoding position's cursor
(`curPktOffsetInElemSeqBits`, `headOffsetInCurPktBits`), as performed by the
code between element emissions.  The sources assign to the cursor fields in
exactly three places, giving the first three constructors:
`_consumeExistingBits` (vm.hpp 953-957, also reached through the substring
and padding-skip handlers), the packet-boundary readjustment of
`_stateEndPkt` (vm.hpp 640-643), and the reset of `VmPos::resetForNewPkt`
called by `_stateBeginPkt` (vm.hpp 579, 215) — which always runs with the
in-packet head already at 0, `_stateEndPkt` having zeroed it (or the
position being freshly created).  Every other statement of the handlers
leaves both cursor fields unchanged, which is the last constructor. -/
inductive CursorStep : VmPos → VmPos → Prop where
  | consume (pos : VmPos) (bits : Nat) : CursorStep pos (consumeExistingBits pos bits)
  | endPktAdjust (pos : VmPos) (it : ItInfos) : CursorStep pos (stateEndPkt pos it).1
  | beginPktReset (pos : VmPos) (h : pos.headOffsetInCurPktBits = 0) :
      CursorStep pos pos.resetForNewPkt
  | nonCursor (pos pos' : VmPos)
      (hpkt : pos'.curPktOffsetInElemSeqBits = pos.curPktOffsetInElemSeqBits)
      (hhead : pos'.headOffsetInCurPktBits = pos.headOffsetInCurPktBits) :
      CursorStep pos pos'

/-- Embeds `yactfr::DecodingError` kinds thrown by the VM (decoding-errors.hpp
surface as used in vm.hpp): each carries the bit offset within the element
sequence plus kind-specific payloads. -/
inductive DecodingError where
  | prematureEndOfData (offsetBits bitsNeeded : Nat)
  | cannotDecodeDataBeyondPacketContent (offsetBits bitsNeeded bitsRemaining : Nat)
  | byteOrderChangeWithinByte (offsetBits : Nat) (prevBo newBo : ByteOrder)
  | invalidVariantSignedSelectorValue (offsetBits : Nat) (selVal : Int)
  | invalidVariantUnsignedSelectorValue (offsetBits : Nat) (selVal : Nat)
deriving DecidableEq

/-- Embeds `Vm::_requireBits` (vm.hpp lines 919-926).  The boolean result of
the effectful `_tryHaveBits` call is a parameter; the position is returned
unchanged on success. -/
def requireBits (pos : VmPos) (tryHaveBitsRes : Bool) (bits : Nat) : Except DecodingError VmPos :=
  if tryHaveBitsRes then Except.ok pos
  else Except.error (DecodingError.prematureEndOfData pos.headOffsetInElemSeqBits bits)

/-- Embeds `Vm::_requireContentBits` (vm.hpp lines 928-939). -/
def requireContentBits (pos : VmPos) (tryHaveBitsRes : Bool) (bits : Nat) : Except DecodingError VmPos :=
  if bits > pos.remContentBitsInPkt then
    Except.error
      (DecodingError.cannotDecodeDataBeyondPacketContent pos.headOffsetInElemSeqBits bits
        pos.remContentBitsInPkt)
  else requireBits pos tryHaveBitsRes bits

/-- Embeds the buffer-window fields of `Vm` (vm.hpp lines 1293-1300): the
window's offset within the current packet and its length, in bits. -/
structure BufState where
  bufOffsetInCurPktBits : Nat
  bufLenBits : Nat
deriving DecidableEq

/-- Embeds `Vm::_remBitsInBuf` (vm.hpp lines 948-951):
`(bufOffsetInCurPktBits + bufLenBits) - headOffsetInCurPktBits` on
`std::uint64_t`. -/
def remBitsInBuf (pos : VmPos) (buf : BufState) : Nat :=
  u64sub ((buf.bufOffsetInCurPktBits + buf.bufLenBits) % 2 ^ 64) pos.headOffsetInCurPktBits

/-- The observable action of one `Vm::_tryHaveBits` call: either the window
already covers the requested bits, or a data request with a byte offset and a
byte count is issued to the source. -/
inductive TryHaveBitsAction where
  | haveEnough
  | request (offsetInElemSeqBytes sizeBytes : Nat)
deriving DecidableEq

/-- Embeds `Vm::_tryHaveBits` (vm.hpp lines 894-917) up to the data-source
call: computes whether the window suffices, and otherwise the request's
floor-byte-aligned offset and size exactly as the source does
(`head & ~7ULL` on a 64-bit word is `head &&& (2 ^ 64 - 8)`). -/
def tryHaveBits (pos : VmPos) (buf : BufState) (bits : Nat) : TryHaveBitsAction :=
  if bits ≤ remBitsInBuf pos buf then TryHaveBitsAction.haveEnough
  else
    let flooredHeadOffsetInCurPacketBits := pos.headOffsetInCurPktBits &&& (2 ^ 64 - 8)
    let flooredHeadOffsetInCurPacketBytes := flooredHeadOffsetInCurPacketBits / 8
    let curPacketOffsetInElemSeqBytes := pos.curPktOffsetInElemSeqBits / 8
    let requestOffsetInElemSeqBytes :=
      curPacketOffsetInElemSeqBytes + flooredHeadOffsetInCurPacketBytes
    let bitInByte := pos.headOffsetInCurPktBits &&& 7
    let sizeBytes := (bits + 7 + bitInByte) / 8
    TryHaveBitsAction.request requestOffsetInElemSeqBytes sizeBytes

/-- Embeds `std::memchr(buf, 0, bufSizeBytes)` as used by
`Vm::_stateReadSubstrUntilNull`: the index of the first zero byte of the
window, if any. -/
def memchrIdx : List Nat → Option Nat
  | [] => none
  | b :: rest => if b = 0 then some 0 else (memchrIdx rest).map (fun i => i + 1)

/-- Embeds `Vm::_stateReadSubstrUntilNull` (vm.hpp lines 762-807).  `window`
holds the whole bytes of the current buffer window starting at the (byte
aligned) head; an empty window models `_tryHaveBits` failing to provide the
byte that `_requireContentBits(8)` demands.  Returns the updated position and
the emitted substring length in bytes. -/
def stateReadSubstrUntilNull (pos : VmPos) (window : List Nat) :
    Except DecodingError (VmPos × Nat) :=
  if 8 > pos.remContentBitsInPkt then
    Except.error
      (DecodingError.cannotDecodeDataBeyondPacketContent pos.headOffsetInElemSeqBits 8
        pos.remContentBitsInPkt)
  else if window.isEmpty then
    Except.error (DecodingError.prematureEndOfData pos.headOffsetInElemSeqBits 8)
  else
    let endIdx :=
      match memchrIdx window with
      | some res => res + 1
      | none => window.length
    let substrLenBits := endIdx * 8
    if substrLenBits > pos.remContentBitsInPkt then
      Except.error
        (DecodingError.cannotDecodeDataBeyondPacketContent pos.headOffsetInElemSeqBits
          substrLenBits pos.remContentBitsInPkt)
    else
      let pos' :=
        if (memchrIdx window).isSome then { pos with theState := VmState.END_STR } else pos
      Except.ok
        ({ pos' with headOffsetInCurPktBits := pos'.headOffsetInCurPktBits + substrLenBits },
         endIdx)

/-- Embeds the byte-order phase of `Vm::_readInt` (vm.hpp lines 1140-1161),
the part following `_execReadBitArrayPreamble`: checks the
byte-order-change-within-byte condition against `lastBo` and records the
instruction's byte order.  The head offset is untouched; the caller
(`_execReadInt`) consumes the bits afterwards. -/
def readIntBoCheck (pos : VmPos) (bo : ByteOrder) : Except DecodingError VmPos :=
  match pos.lastBo with
  | some prevBo =>
    if pos.headOffsetInCurPktBits &&& 7 ≠ 0 then
      if bo ≠ prevBo then
        Except.error (DecodingError.byteOrderChangeWithinByte pos.headOffsetInElemSeqBits prevBo bo)
      else Except.ok { pos with lastBo := some bo }
    else Except.ok { pos with lastBo := some bo }
  | none => Except.ok { pos with lastBo := some bo }

/-- Embeds `Vm::_continueSkipPaddingBits(true)` (vm.hpp lines 875-892), the
content-bits flavour: as long as bits remain to skip, require one content bit
(each list element is the window's bit count for one loop iteration, as
refilled by `_requireContentBits(1)`; an exhausted list models `_tryHaveBits`
failing) and consume `min(remBitsToSkip, remBitsInBuf)`; finally restore
`postSkipBitsState`. -/
def continueSkipContentPaddingBits : VmPos → List Nat → Except DecodingError VmPos
  | pos, windows =>
    if pos.remBitsToSkip = 0 then Except.ok { pos with theState := pos.postSkipBitsState }
    else
      match windows with
      | [] => Except.error (DecodingError.prematureEndOfData pos.headOffsetInElemSeqBits 1)
      | w :: rest =>
        if 1 > pos.remContentBitsInPkt then
          Except.error
            (DecodingError.cannotDecodeDataBeyondPacketContent pos.headOffsetInElemSeqBits 1
              pos.remContentBitsInPkt)
        else
          let bitsToSkip := min pos.remBitsToSkip w
          continueSkipContentPaddingBits
            { pos with
              remBitsToSkip := pos.remBitsToSkip - bitsToSkip
              headOffsetInCurPktBits := pos.headOffsetInCurPktBits + bitsToSkip } rest

/-- Embeds `Vm::_alignHead` (vm.hpp lines 847-868):
`newHead = (head + align - 1) & -align` on 64-bit words (`-align` is
`2 ^ 64 - align`); a zero skip is a no-op, a skip beyond the remaining packet
content throws, and otherwise the skip runs through
`CONTINUE_SKIP_CONTENT_PADDING_BITS`. -/
def alignHead (pos : VmPos) (align : Nat) (windows : List Nat) : Except DecodingError VmPos :=
  let newHeadOffsetBits :=
    ((pos.headOffsetInCurPktBits + align - 1) % 2 ^ 64) &&& (2 ^ 64 - align)
  let bitsToSkip := u64sub newHeadOffsetBits pos.headOffsetInCurPktBits
  if bitsToSkip = 0 then Except.ok pos
  else if bitsToSkip > pos.remContentBitsInPkt then
    Except.error
      (DecodingError.cannotDecodeDataBeyondPacketContent pos.headOffsetInElemSeqBits bitsToSkip
        pos.remContentBitsInPkt)
  else
    continueSkipContentPaddingBits
      { pos with
        remBitsToSkip := bitsToSkip
        postSkipBitsState := pos.theState
        theState := VmState.CONTINUE_SKIP_CONTENT_PADDING_BITS } windows

/-- The two variant flavours of vm.hpp lines 1025-1026: a signed-selector or
unsigned-selector variant read instruction. -/
inductive VarSelFlavor where
  | signed
  | unsigned
deriving DecidableEq

/-- Reinterpretation of a `std::uint64_t` value as `std::int64_t`
(`static_cast<typename ReadVarInstrT::Opt::Val>` in `Vm::_execBeginReadVar`
for the signed flavour). -/
def toSigned64 (u : Nat) : Int :=
  if u < 2 ^ 63 then (u : Int) else (u : Int) - 2 ^ 64

/-- One option of a variant-read instruction (`ReadVarInstrOpt`, proc.hpp):
its selector range set, as a list of inclusive ranges, and its subprocedure as
an abstract identifier. -/
structure VarOpt where
  ranges : List (Int × Int)
  procId : Nat
deriving DecidableEq

/-- Modelled from the spec: `IntegerRangeSet::contains` (the header
`int-range-set.hpp` is not among the sources; `ReadVarInstrOpt::contains`
delegates to it).  Per the spec an option's selector range set is a set of
inclusive integer ranges `[lower, upper]`, and containment means membership in
some range. -/
def rangeSetContains (ranges : List (Int × Int)) (v : Int) : Bool :=
  ranges.any (fun r => decide (r.1 ≤ v ∧ v ≤ r.2))

/-- Embeds `BeginReadVarInstr::procForSelVal` (proc.hpp lines 2890-2898): the
first option whose range set contains the selector value, if any. -/
def procForSelVal (opts : List VarOpt) (selVal : Int) : Option Nat :=
  (opts.find? (fun o => rangeSetContains o.ranges selVal)).map VarOpt.procId

/-- Embeds `Vm::_execBeginReadVar` (vm.hpp lines 1220-1251) after its initial
`_alignHead` call (alignment is modelled separately by `alignHead`): read the
saved selector value, reinterpret it per the flavour, look up the option,
either fail (leaving the position and iterator untouched, as the C++ `throw`
happens before any mutation) or emit the variant-beginning element, advance
the program counter past the instruction, push the option's subprocedure and
go to `EXEC_INSTR`. -/
def execBeginReadVar (flavor : VarSelFlavor) (pos : VmPos) (it : ItInfos) (selPos : Nat)
    (opts : List VarOpt) : Option DecodingError × VmPos × ItInfos :=
  let uSelVal := pos.savedVals.getD selPos 0
  let selVal : Int :=
    match flavor with
    | VarSelFlavor.signed => toSigned64 uSelVal
    | VarSelFlavor.unsigned => (uSelVal : Int)
  match procForSelVal opts selVal with
  | none =>
    (some
      (match flavor with
       | VarSelFlavor.signed =>
         DecodingError.invalidVariantSignedSelectorValue pos.headOffsetInElemSeqBits selVal
       | VarSelFlavor.unsigned =>
         DecodingError.invalidVariantUnsignedSelectorValue pos.headOffsetInElemSeqBits uSelVal),
     pos, it)
  | some procId =>
    let pos1 := { pos with elems := { pos.elems with varSelVal := selVal } }
    let it1 := updateItCurOffset pos1 it
    let pos2 := pos1.gotoNextInstr
    let pos3 := pos2.stackPush procId
    (none, { pos3 with theState := VmState.EXEC_INSTR }, it1)

/-- A default concrete position used to build witnesses. -/
def testPos : VmPos :=
  { curPktOffsetInElemSeqBits := 0
    headOffsetInCurPktBits := 0
    elems := { varSelVal := 0, scratch := 0 }
    theState := VmState.BEGIN_PKT
    postSkipBitsState := VmState.BEGIN_PKT
    postEndStrState := VmState.EXEC_INSTR
    lastBo := none
    remBitsToSkip := 0
    lastIntVal := 0
    curId := 0
    pktProc := 0
    curDsPktProc := none
    curErProc := none
    uuid := []
    curExpectedPktTotalLenBits := SIZE_UNSET
    curExpectedPktContentLenBits := SIZE_UNSET
    stack := []
    savedVals := []
    defClkVal := 0 }

/-! ## Helper lemmas about 64-bit masking -/

theorem two_pow_sub_two_pow_eq {a w : Nat} (h : a ≤ w) :
    2 ^ w - 2 ^ a = 2 ^ a * (2 ^ (w - a) - 1) := by
  have h1 : 2 ^ a * 2 ^ (w - a) = 2 ^ w := by
    rw [← pow_add]
    congr 1
    omega
  rw [Nat.mul_sub_one, h1]

theorem sub_mod_eq_div_mul (M p : Nat) : M - M % p = p * (M / p) := by
  conv_lhs => rw [← Nat.div_add_mod M p]
  rw [Nat.mul_add_mod, Nat.mod_mod_of_dvd M (dvd_refl p), Nat.add_sub_cancel]

/-- Masking a value below `2 ^ w` with `2 ^ w - 2 ^ a` (the 64-bit complement
of a low mask, for `w = 64`) clears its low `a` bits. -/
theorem land_two_pow_sub_two_pow {x : Nat} (a w : Nat) (hx : x < 2 ^ w) (haw : a ≤ w) :
    x &&& (2 ^ w - 2 ^ a) = x - x % 2 ^ a := by
  rw [two_pow_sub_two_pow_eq haw, sub_mod_eq_div_mul]
  apply Nat.eq_of_testBit_eq
  intro j
  rw [Nat.testBit_and, Nat.testBit_mul_pow_two, Nat.testBit_mul_pow_two,
    Nat.testBit_two_pow_sub_one]
  have hdivbit : (x / 2 ^ a).testBit (j - a) = x.testBit (a + (j - a)) := by
    rw [← Nat.shiftRight_eq_div_pow, Nat.testBit_shiftRight]
  rw [hdivbit]
  by_cases hja : a ≤ j
  · have hsum : a + (j - a) = j := by omega
    rw [hsum]
    by_cases hjw : j < w
    · have hlt : j - a < w - a := by omega
      simp [hja, hlt, Bool.and_comm]
    · have hxj : x.testBit j = false :=
        Nat.testBit_lt_two_pow
          (lt_of_lt_of_le hx (Nat.pow_le_pow_right (by norm_num) (by omega)))
      have hge : ¬ (j - a < w - a) := by omega
      simp [hxj, hge]
  · simp [hja]

/-- ORing a value whose low `p` bits are clear with a value below `2 ^ p` is
addition. -/
theorem lor_low_zero_eq_add {p x u : Nat} (hu : u < 2 ^ p) (hx : x % 2 ^ p = 0) :
    x ||| u = x + u := by
  have hrepr : x = 2 ^ p * (x / 2 ^ p) := by
    have := Nat.div_add_mod x (2 ^ p)
    omega
  rw [hrepr, ← Nat.mul_add_lt_is_or hu]

theorem land_seven (x : Nat) : x &&& 7 = x % 8 := by
  have h : (7 : Nat) = 2 ^ 3 - 1 := by norm_num
  rw [h, Nat.and_pow_two_sub_one_eq_mod]

/-! ## C1 and C2: the default-clock accumulator -/

/-- For `len < 64`, `updateDefClkVal` computes the wrap-adjusted accumulator
with cleared low bits ORed with the new low bits; shared arithmetic form. -/
theorem updateDefClkVal_lt64_eq (pos : VmPos) (L : Nat) (h2 : L < 64)
    (hd : pos.defClkVal < 2 ^ 64) :
    pos.updateDefClkVal L =
      (let acc :=
        (pos.defClkVal + if pos.lastIntVal < pos.defClkVal % 2 ^ L then 2 ^ L else 0) % 2 ^ 64
       let res := (acc - acc % 2 ^ L) ||| pos.lastIntVal
       ({ pos with defClkVal := res }, res)) := by
  have hL64 : ¬ (L = 64) := by omega
  have hmask : (1 <<< L) - 1 = 2 ^ L - 1 := by
    rw [Nat.shiftLeft_eq, Nat.one_mul]
  have hpos : 0 < 2 ^ L := Nat.pos_pow_of_pos _ (by norm_num)
  have hcompl : 2 ^ 64 - 1 - (2 ^ L - 1) = 2 ^ 64 - 2 ^ L := by
    have : 2 ^ L ≤ 2 ^ 64 := Nat.pow_le_pow_right (by norm_num) (by omega)
    omega
  unfold VmPos.updateDefClkVal
  simp only [hL64, if_false, hmask, Nat.and_pow_two_sub_one_eq_mod, hcompl]
  have hmaskp1 : 2 ^ L - 1 + 1 = 2 ^ L := by omega
  rw [hmaskp1]
  split
  · have hacc : (pos.defClkVal + 2 ^ L) % 2 ^ 64 < 2 ^ 64 :=
      Nat.mod_lt _ (by norm_num)
    rw [land_two_pow_sub_two_pow L 64 hacc (by omega)]
  · rw [land_two_pow_sub_two_pow L 64 hd (by omega), Nat.add_zero, Nat.mod_eq_of_lt hd]

/-- C1: for every accumulator value, just-decoded value and length `L` in
`1..64` (with both 64-bit quantities in machine range),
`VmPos::updateDefClkVal` overwrites the accumulator with `lastIntVal.u` when
`L = 64`, and otherwise, with `mask = (1 <<< L) - 1` and
`curLow = defClkVal &&& mask` (i.e. `defClkVal % 2 ^ L`), computes
`defClkVal + (if lastIntVal.u < curLow then mask + 1 else 0)` (64-bit
addition), clears its low `L` bits and ORs in `lastIntVal.u`; the result is
stored back into `defClkVal` and returned. -/
theorem updateDefClkVal_correct (pos : VmPos) (L : Nat) (h1 : 1 ≤ L) (h2 : L ≤ 64)
    (hd : pos.defClkVal < 2 ^ 64) (hu : pos.lastIntVal < 2 ^ 64) :
    (L = 64 →
      pos.updateDefClkVal L = ({ pos with defClkVal := pos.lastIntVal }, pos.lastIntVal)) ∧
    (L < 64 →
      pos.updateDefClkVal L =
        (let mask := (1 <<< L) - 1
         let curLow := pos.defClkVal % 2 ^ L
         let acc := (pos.defClkVal + if pos.lastIntVal < curLow then mask + 1 else 0) % 2 ^ 64
         let res := (acc - acc % 2 ^ L) ||| pos.lastIntVal
         ({ pos with defClkVal := res }, res))) := by
  constructor
  · intro h64
    unfold VmPos.updateDefClkVal
    simp [h64]
  · intro hlt
    rw [updateDefClkVal_lt64_eq pos L hlt hd]
    have hmask : (1 <<< L) - 1 = 2 ^ L - 1 := by
      rw [Nat.shiftLeft_eq, Nat.one_mul]
    have hpos : 0 < 2 ^ L := Nat.pos_pow_of_pos _ (by norm_num)
    simp only [hmask]
    have hmaskp1 : 2 ^ L - 1 + 1 = 2 ^ L := by omega
    rw [hmaskp1]

/-- Witness for C1, on the spec's clock seed scenario: accumulator `0xFF00`,
new low-16 value `0x0100`, length 16; the updated value is `0x10100` (one
wrap detected). -/
theorem updateDefClkVal_correct_witness :
    (({ testPos with defClkVal := 65280, lastIntVal := 256 } : VmPos).updateDefClkVal 16).2 =
      65792 := by
  have h :=
    updateDefClkVal_correct { testPos with defClkVal := 65280, lastIntVal := 256 } 16
      (by decide) (by decide) (by decide) (by decide)
  have h2 := h.2 (by decide)
  rw [h2]
  decide

/-- C2 counterexample: the returned clock value is not `≥` the previous
accumulator for every `defClkVal`, `lastIntVal.u` and `L` in `1..64`: at
`L = 64` a smaller 64-bit snapshot overwrites a larger accumulator; at `L = 1`
with the accumulator at `2 ^ 64 - 1` the wrap adjustment overflows the 64-bit
word; and a `lastIntVal.u ≥ 2 ^ L` (here `16 ≥ 2 ^ 4`) can drop the
accumulator's low field. -/
theorem updateDefClkVal_not_monotone_cex :
    ((({ testPos with defClkVal := 1, lastIntVal := 0 } : VmPos).updateDefClkVal 64).2 < 1) ∧
    ((({ testPos with defClkVal := 2 ^ 64 - 1, lastIntVal := 0 } : VmPos).updateDefClkVal 1).2 <
      2 ^ 64 - 1) ∧
    ((({ testPos with defClkVal := 31, lastIntVal := 16 } : VmPos).updateDefClkVal 4).2 < 31) := by
  refine ⟨by decide, by decide, by decide⟩

/-- C2 (amended): for `L` in `1..63`, a just-decoded value below `2 ^ L` and
an accumulator that does not overflow the 64-bit word when wrap-adjusted
(`defClkVal + 2 ^ L ≤ 2 ^ 64`), the value returned by
`VmPos::updateDefClkVal` is `≥` the accumulator before the call; at `L = 64`
the accumulator is simply overwritten and may decrease. -/
theorem updateDefClkVal_monotone (pos : VmPos) (L : Nat) (h1 : 1 ≤ L) (h2 : L < 64)
    (hu : pos.lastIntVal < 2 ^ L) (hov : pos.defClkVal + 2 ^ L ≤ 2 ^ 64) :
    pos.defClkVal ≤ (pos.updateDefClkVal L).2 := by
  have hLpos : 0 < 2 ^ L := Nat.pos_pow_of_pos _ (by norm_num)
  have hd : pos.defClkVal < 2 ^ 64 := by omega
  rw [updateDefClkVal_lt64_eq pos L h2 hd]
  dsimp only
  by_cases hwrap : pos.lastIntVal < pos.defClkVal % 2 ^ L
  · rw [if_pos hwrap]
    have hlt : pos.defClkVal + 2 ^ L < 2 ^ 64 := by
      rcases Nat.lt_or_ge (pos.defClkVal + 2 ^ L) (2 ^ 64) with h | h
      · exact h
      · exfalso
        have hDeq : pos.defClkVal = 2 ^ 64 - 2 ^ L := by omega
        have hmodz : pos.defClkVal % 2 ^ L = 0 := by
          rw [hDeq, two_pow_sub_two_pow_eq (by omega : L ≤ 64)]
          exact Nat.mul_mod_right _ _
        omega
    rw [Nat.mod_eq_of_lt hlt]
    have hx : (pos.defClkVal + 2 ^ L - (pos.defClkVal + 2 ^ L) % 2 ^ L) % 2 ^ L = 0 := by
      rw [sub_mod_eq_div_mul]
      exact Nat.mul_mod_right _ _
    rw [lor_low_zero_eq_add hu hx]
    have hr : (pos.defClkVal + 2 ^ L) % 2 ^ L < 2 ^ L := Nat.mod_lt _ hLpos
    omega
  · rw [if_neg hwrap, Nat.add_zero, Nat.mod_eq_of_lt hd]
    have hx : (pos.defClkVal - pos.defClkVal % 2 ^ L) % 2 ^ L = 0 := by
      rw [sub_mod_eq_div_mul]
      exact Nat.mul_mod_right _ _
    rw [lor_low_zero_eq_add hu hx]
    have hr : pos.defClkVal % 2 ^ L ≤ pos.defClkVal := Nat.mod_le _ _
    omega

/-- Witness for the amended C2, on the spec's clock seed scenario
(accumulator `0xFF00`, new value `0x0100`, length 16). -/
theorem updateDefClkVal_monotone_witness :
    (65280 : Nat) ≤
      (({ testPos with defClkVal := 65280, lastIntVal := 256 } : VmPos).updateDefClkVal 16).2 :=
  updateDefClkVal_monotone { testPos with defClkVal := 65280, lastIntVal := 256 } 16
    (by decide) (by decide) (by decide) (by decide)

/-! ## C3: iterator offset and mark ordering -/

/-- C3 counterexample: across a packet boundary the claimed ordering fails.
With a packet ending at element-sequence bit offset 32 and an iterator mark of
5 before the packet-end element, `_stateEndPkt` emits the packet-end element
at offset 32 with mark 6, and the following `_stateBeginPkt` emits the
packet-beginning element at the same offset 32 with mark reset to 1: the
offset does not increase and the mark decreases. -/
theorem it_order_boundary_cex :
    ((stateEndPkt { testPos with headOffsetInCurPktBits := 32, theState := VmState.END_PKT }
        { mark := 5, offset := 24 }).2).offset = 32 ∧
    ((stateBeginPkt
        (stateEndPkt { testPos with headOffsetInCurPktBits := 32, theState := VmState.END_PKT }
          { mark := 5, offset := 24 }).1
        (stateEndPkt { testPos with headOffsetInCurPktBits := 32, theState := VmState.END_PKT }
          { mark := 5, offset := 24 }).2).2).offset = 32 ∧
    ((stateEndPkt { testPos with headOffsetInCurPktBits := 32, theState := VmState.END_PKT }
        { mark := 5, offset := 24 }).2).mark = 6 ∧
    ((stateBeginPkt
        (stateEndPkt { testPos with headOffsetInCurPktBits := 32, theState := VmState.END_PKT }
          { mark := 5, offset := 24 }).1
        (stateEndPkt { testPos with headOffsetInCurPktBits := 32, theState := VmState.END_PKT }
          { mark := 5, offset := 24 }).2).2).mark = 1 ∧
    ¬ (((stateEndPkt { testPos with headOffsetInCurPktBits := 32, theState := VmState.END_PKT }
          { mark := 5, offset := 24 }).2).offset ≤
        ((stateBeginPkt
          (stateEndPkt { testPos with headOffsetInCurPktBits := 32, theState := VmState.END_PKT }
            { mark := 5, offset := 24 }).1
          (stateEndPkt { testPos with headOffsetInCurPktBits := 32, theState := VmState.END_PKT }
            { mark := 5, offset := 24 }).2).2).offset ∧
      (((stateEndPkt { testPos with headOffsetInCurPktBits := 32, theState := VmState.END_PKT }
            { mark := 5, offset := 24 }).2).offset <
          ((stateBeginPkt
            (stateEndPkt { testPos with headOffsetInCurPktBits := 32, theState := VmState.END_PKT }
              { mark := 5, offset := 24 }).1
            (stateEndPkt { testPos with headOffsetInCurPktBits := 32, theState := VmState.END_PKT }
              { mark := 5, offset := 24 }).2).2).offset ∨
        ((stateEndPkt { testPos with headOffsetInCurPktBits := 32, theState := VmState.END_PKT }
            { mark := 5, offset := 24 }).2).mark <
          ((stateBeginPkt
            (stateEndPkt { testPos with headOffsetInCurPktBits := 32, theState := VmState.END_PKT }
              { mark := 5, offset := 24 }).1
            (stateEndPkt { testPos with headOffsetInCurPktBits := 32, theState := VmState.END_PKT }
              { mark := 5, offset := 24 }).2).2).mark)) := by
  decide

/-- Each single cursor mutation of the handlers keeps the element-sequence
head offset non-decreasing: consuming bits advances it, the packet-end
readjustment and the cursor-neutral mutations preserve it, and the new-packet
reset runs at a zeroed head, where it also preserves it. -/
theorem CursorStep.headOffset_le {pos pos' : VmPos} (h : CursorStep pos pos') :
    pos.headOffsetInElemSeqBits ≤ pos'.headOffsetInElemSeqBits := by
  cases h with
  | consume bits =>
    simp only [consumeExistingBits, VmPos.headOffsetInElemSeqBits]
    omega
  | endPktAdjust it =>
    simp [stateEndPkt, VmPos.headOffsetInElemSeqBits]
  | beginPktReset h0 =>
    simp [VmPos.resetForNewPkt, VmPos.headOffsetInElemSeqBits, h0]
  | nonCursor pos' hpkt hhead =>
    simp [VmPos.headOffsetInElemSeqBits, hpkt, hhead]

/-- The element-sequence head offset is monotone along any chain of cursor
mutations. -/
theorem cursorSteps_headOffset_mono {pos pos' : VmPos}
    (h : Relation.ReflTransGen CursorStep pos pos') :
    pos.headOffsetInElemSeqBits ≤ pos'.headOffsetInElemSeqBits := by
  induction h with
  | refl => exact le_refl _
  | tail _ hstep ih => exact le_trans ih hstep.headOffset_le

/-- C3 (amended): between consecutive element emissions the position evolves
only by the handlers' cursor mutations (`CursorStep`: bit consumption, the
packet-end readjustment, the new-packet reset at a zeroed head, and
cursor-neutral mutations), and along any such chain the element-sequence head
offset — hence the iterator's offset — never decreases; between two
consecutive emissions through `_updateItCurOffset` (no intervening mark
reset) the pair `(offset, mark)` moreover strictly increases
lexicographically, since every emission increments the mark.  Across a packet
boundary — itself a `CursorStep` chain — the packet-beginning element has the
same offset as the preceding packet-end element and its mark is reset to 1,
so the strict lexicographic increase does not extend across the boundary. -/
theorem it_order_amended :
    (∀ (it : ItInfos) (pos1 pos2 : VmPos),
        Relation.ReflTransGen CursorStep pos1 pos2 →
        (updateItCurOffset pos1 it).offset ≤
            (updateItCurOffset pos2 (updateItCurOffset pos1 it)).offset ∧
          ((updateItCurOffset pos1 it).offset <
              (updateItCurOffset pos2 (updateItCurOffset pos1 it)).offset ∨
            (updateItCurOffset pos1 it).mark <
              (updateItCurOffset pos2 (updateItCurOffset pos1 it)).mark)) ∧
    (∀ (pos : VmPos) (it : ItInfos),
        Relation.ReflTransGen CursorStep pos
            (stateBeginPkt (stateEndPkt pos it).1 (stateEndPkt pos it).2).1 ∧
        ((stateBeginPkt (stateEndPkt pos it).1 (stateEndPkt pos it).2).2).offset =
            ((stateEndPkt pos it).2).offset ∧
        ((stateBeginPkt (stateEndPkt pos it).1 (stateEndPkt pos it).2).2).mark = 1) := by
  constructor
  · intro it pos1 pos2 hsteps
    simp only [updateItCurOffset, updateIt]
    exact ⟨cursorSteps_headOffset_mono hsteps, Or.inr (Nat.lt_succ_self _)⟩
  · intro pos it
    refine ⟨?_, ?_, ?_⟩
    · refine Relation.ReflTransGen.trans
        (Relation.ReflTransGen.single (CursorStep.endPktAdjust pos it)) ?_
      refine Relation.ReflTransGen.trans
        (Relation.ReflTransGen.single (CursorStep.beginPktReset (stateEndPkt pos it).1 rfl)) ?_
      exact Relation.ReflTransGen.single (CursorStep.nonCursor _ _ rfl rfl)
    · simp [stateBeginPkt, stateEndPkt, updateItCurOffset, updateIt, resetItMark,
        VmPos.resetForNewPkt, VmPos.stackPush, VmPos.headOffsetInElemSeqBits]
    · simp [stateBeginPkt, stateEndPkt, updateItCurOffset, updateIt, resetItMark,
        VmPos.resetForNewPkt, VmPos.stackPush]

/-- Witness for the amended C3: two in-packet emissions separated by one
8-bit consumption step, and one packet-boundary pair. -/
theorem it_order_amended_witness :
    ((updateItCurOffset { testPos with headOffsetInCurPktBits := 8 }
        { mark := 3, offset := 0 }).offset ≤
        (updateItCurOffset { testPos with headOffsetInCurPktBits := 16 }
          (updateItCurOffset { testPos with headOffsetInCurPktBits := 8 }
            { mark := 3, offset := 0 })).offset ∧
      ((updateItCurOffset { testPos with headOffsetInCurPktBits := 8 }
          { mark := 3, offset := 0 }).offset <
          (updateItCurOffset { testPos with headOffsetInCurPktBits := 16 }
            (updateItCurOffset { testPos with headOffsetInCurPktBits := 8 }
              { mark := 3, offset := 0 })).offset ∨
        (updateItCurOffset { testPos with headOffsetInCurPktBits := 8 }
            { mark := 3, offset := 0 }).mark <
          (updateItCurOffset { testPos with headOffsetInCurPktBits := 16 }
            (updateItCurOffset { testPos with headOffsetInCurPktBits := 8 }
              { mark := 3, offset := 0 })).mark)) ∧
    (Relation.ReflTransGen CursorStep { testPos with headOffsetInCurPktBits := 32 }
        (stateBeginPkt
          (stateEndPkt { testPos with headOffsetInCurPktBits := 32 } { mark := 5, offset := 24 }).1
          (stateEndPkt { testPos with headOffsetInCurPktBits := 32 }
            { mark := 5, offset := 24 }).2).1 ∧
      ((stateBeginPkt
          (stateEndPkt { testPos with headOffsetInCurPktBits := 32 } { mark := 5, offset := 24 }).1
          (stateEndPkt { testPos with headOffsetInCurPktBits := 32 }
            { mark := 5, offset := 24 }).2).2).offset =
        ((stateEndPkt { testPos with headOffsetInCurPktBits := 32 }
          { mark := 5, offset := 24 }).2).offset ∧
      ((stateBeginPkt
          (stateEndPkt { testPos with headOffsetInCurPktBits := 32 } { mark := 5, offset := 24 }).1
          (stateEndPkt { testPos with headOffsetInCurPktBits := 32 }
            { mark := 5, offset := 24 }).2).2).mark = 1) :=
  ⟨it_order_amended.1 { mark := 3, offset := 0 } { testPos with headOffsetInCurPktBits := 8 }
      { testPos with headOffsetInCurPktBits := 16 }
      (Relation.ReflTransGen.single
        (CursorStep.consume { testPos with headOffsetInCurPktBits := 8 } 8)),
    it_order_amended.2 { testPos with headOffsetInCurPktBits := 32 } { mark := 5, offset := 24 }⟩

/-! ## C4: requireBits and requireContentBits -/

/-- C4: `_requireContentBits(n)` throws `CannotDecodeDataBeyondPacketContent`
exactly when `n` exceeds the remaining packet-content bits
(`curExpectedPktContentLenBits - headOffsetInCurPktBits`); otherwise it
behaves as `_requireBits(n)`, which throws `PrematureEndOfData` exactly when
`_tryHaveBits(n)` returns false; on success neither function changes the
position (in particular the head offset). -/
theorem requireBits_requireContentBits_spec (pos : VmPos) (b : Bool) (n : Nat) :
    (requireContentBits pos b n =
        Except.error
          (DecodingError.cannotDecodeDataBeyondPacketContent pos.headOffsetInElemSeqBits n
            pos.remContentBitsInPkt) ↔
      n > pos.remContentBitsInPkt) ∧
    (n ≤ pos.remContentBitsInPkt → requireContentBits pos b n = requireBits pos b n) ∧
    (requireBits pos b n =
        Except.error (DecodingError.prematureEndOfData pos.headOffsetInElemSeqBits n) ↔
      b = false) ∧
    (∀ pos', requireBits pos b n = Except.ok pos' → pos' = pos) ∧
    (∀ pos', requireContentBits pos b n = Except.ok pos' → pos' = pos) := by
  unfold requireContentBits requireBits
  rcases b <;> by_cases h : n > pos.remContentBitsInPkt <;> simp [h] <;> omega

/-- Witness for C4: with an expected content length of 64 bits and the head
at offset 0, requiring 8 content bits with a succeeding `_tryHaveBits` is the
same as requiring 8 plain bits. -/
theorem requireBits_requireContentBits_spec_witness :
    requireContentBits { testPos with curExpectedPktContentLenBits := 64 } true 8 =
      requireBits { testPos with curExpectedPktContentLenBits := 64 } true 8 :=
  (requireBits_requireContentBits_spec { testPos with curExpectedPktContentLenBits := 64 } true
      8).2.1 (by decide)

/-! ## C5: the data request of tryHaveBits -/

/-- C5: for a request of `bits ≤ 64` bits that the window does not cover,
`_tryHaveBits` asks the source for exactly `ceil((bits + bitInByte) / 8)`
bytes, with `bitInByte = headOffsetInCurPktBits % 8`, at the floor-byte-aligned
element-sequence offset of the cursor, and this size never exceeds 9 bytes. -/
theorem tryHaveBits_request_spec (pos : VmPos) (buf : BufState) (bits : Nat)
    (hbits : bits ≤ 64) (hhead : pos.headOffsetInCurPktBits < 2 ^ 64)
    (hpkt : pos.curPktOffsetInElemSeqBits % 8 = 0)
    (hneed : remBitsInBuf pos buf < bits) :
    tryHaveBits pos buf bits =
      TryHaveBitsAction.request (pos.headOffsetInElemSeqBits / 8)
        ((bits + pos.headOffsetInCurPktBits % 8 + 7) / 8) ∧
    (bits + pos.headOffsetInCurPktBits % 8 + 7) / 8 ≤ 9 := by
  constructor
  · unfold tryHaveBits
    rw [if_neg (by omega)]
    have hfloor : pos.headOffsetInCurPktBits &&& (2 ^ 64 - 8) =
        8 * (pos.headOffsetInCurPktBits / 8) := by
      have h8 : (2 ^ 64 - 8 : Nat) = 2 ^ 64 - 2 ^ 3 := by norm_num
      rw [h8, land_two_pow_sub_two_pow 3 64 hhead (by norm_num), sub_mod_eq_div_mul]
      norm_num
    rw [hfloor, land_seven]
    show TryHaveBitsAction.request
        (pos.curPktOffsetInElemSeqBits / 8 + 8 * (pos.headOffsetInCurPktBits / 8) / 8)
        ((bits + 7 + pos.headOffsetInCurPktBits % 8) / 8) =
      TryHaveBitsAction.request (pos.headOffsetInElemSeqBits / 8)
        ((bits + pos.headOffsetInCurPktBits % 8 + 7) / 8)
    have hq : 8 * (pos.headOffsetInCurPktBits / 8) / 8 = pos.headOffsetInCurPktBits / 8 :=
      Nat.mul_div_cancel_left _ (by norm_num)
    have hsz : bits + 7 + pos.headOffsetInCurPktBits % 8 =
        bits + pos.headOffsetInCurPktBits % 8 + 7 := by omega
    rw [hq, hsz]
    congr 1
    unfold VmPos.headOffsetInElemSeqBits
    obtain ⟨q, hq2⟩ : ∃ q, pos.curPktOffsetInElemSeqBits = 8 * q :=
      ⟨pos.curPktOffsetInElemSeqBits / 8, by omega⟩
    rw [hq2, Nat.mul_div_cancel_left _ (by norm_num), Nat.mul_add_div (by norm_num)]
  · omega

/-- Witness for C5: head at bit 3 in the packet, an empty window and a 64-bit
request: 9 bytes are requested at element-sequence byte offset 0. -/
theorem tryHaveBits_request_spec_witness :
    tryHaveBits { testPos with headOffsetInCurPktBits := 3 }
        { bufOffsetInCurPktBits := 0, bufLenBits := 3 } 64 =
      TryHaveBitsAction.request 0 9 ∧ (64 + 3 % 8 + 7) / 8 ≤ 9 :=
  tryHaveBits_request_spec { testPos with headOffsetInCurPktBits := 3 }
    { bufOffsetInCurPktBits := 0, bufLenBits := 3 } 64 (by decide) (by decide) (by decide)
    (by decide)

/-! ## C6: the null-terminated substring scanner -/

/-- C6: each `READ_SUBSTR_UNTIL_NULL` invocation requires one content byte
(failing with `CannotDecodeDataBeyondPacketContent` when fewer than 8 content
bits remain, and with `PrematureEndOfData` when the source has no byte),
scans the window for a zero byte, and emits a substring of `i + 1` bytes and
goes to `END_STR` when the first zero byte is at index `i`, or a substring of
the whole window and stays in `READ_SUBSTR_UNTIL_NULL` when there is none;
before emitting it fails with `CannotDecodeDataBeyondPacketContent` when the
substring's bit length exceeds the remaining content bits, and on success the
head offset advances by exactly the substring's length in bits. -/
theorem stateReadSubstrUntilNull_spec (pos : VmPos) (window : List Nat)
    (hstate : pos.theState = VmState.READ_SUBSTR_UNTIL_NULL) :
    (8 > pos.remContentBitsInPkt →
      stateReadSubstrUntilNull pos window =
        Except.error
          (DecodingError.cannotDecodeDataBeyondPacketContent pos.headOffsetInElemSeqBits 8
            pos.remContentBitsInPkt)) ∧
    (8 ≤ pos.remContentBitsInPkt → window = [] →
      stateReadSubstrUntilNull pos window =
        Except.error (DecodingError.prematureEndOfData pos.headOffsetInElemSeqBits 8)) ∧
    (∀ i, 8 ≤ pos.remContentBitsInPkt → memchrIdx window = some i →
      ((i + 1) * 8 > pos.remContentBitsInPkt →
        stateReadSubstrUntilNull pos window =
          Except.error
            (DecodingError.cannotDecodeDataBeyondPacketContent pos.headOffsetInElemSeqBits
              ((i + 1) * 8) pos.remContentBitsInPkt)) ∧
      ((i + 1) * 8 ≤ pos.remContentBitsInPkt →
        stateReadSubstrUntilNull pos window =
          Except.ok
            ({ pos with
                theState := VmState.END_STR
                headOffsetInCurPktBits := pos.headOffsetInCurPktBits + (i + 1) * 8 }, i + 1))) ∧
    (8 ≤ pos.remContentBitsInPkt → memchrIdx window = none → window ≠ [] →
      (window.length * 8 > pos.remContentBitsInPkt →
        stateReadSubstrUntilNull pos window =
          Except.error
            (DecodingError.cannotDecodeDataBeyondPacketContent pos.headOffsetInElemSeqBits
              (window.length * 8) pos.remContentBitsInPkt)) ∧
      (window.length * 8 ≤ pos.remContentBitsInPkt →
        stateReadSubstrUntilNull pos window =
          Except.ok
            ({ pos with
                headOffsetInCurPktBits := pos.headOffsetInCurPktBits + window.length * 8 },
             window.length) ∧
        ({ pos with
            headOffsetInCurPktBits := pos.headOffsetInCurPktBits + window.length * 8 } :
            VmPos).theState = VmState.READ_SUBSTR_UNTIL_NULL)) := by
  refine ⟨?_, ?_, ?_, ?_⟩
  · intro h
    unfold stateReadSubstrUntilNull
    rw [if_pos h]
  · intro h hw
    unfold stateReadSubstrUntilNull
    rw [if_neg (by omega), hw]
    rfl
  · intro i h hsome
    have hwb : window.isEmpty = false := by
      cases window
      · simp [memchrIdx] at hsome
      · rfl
    constructor
    · intro hover
      unfold stateReadSubstrUntilNull
      rw [if_neg (by omega), if_neg (by simp [hwb])]
      simp only [hsome]
      rw [if_pos hover]
    · intro hfit
      unfold stateReadSubstrUntilNull
      rw [if_neg (by omega), if_neg (by simp [hwb])]
      simp only [hsome]
      rw [if_neg (Nat.not_lt.mpr hfit)]
      rfl
  · intro h hnone hw
    have hwb : window.isEmpty = false := by
      cases window
      · exact absurd rfl hw
      · rfl
    constructor
    · intro hover
      unfold stateReadSubstrUntilNull
      rw [if_neg (by omega), if_neg (by simp [hwb])]
      simp only [hnone]
      rw [if_pos hover]
    · intro hfit
      refine ⟨?_, hstate⟩
      unfold stateReadSubstrUntilNull
      rw [if_neg (by omega), if_neg (by simp [hwb])]
      simp only [hnone]
      rw [if_neg (by omega)]
      rfl

/-- Witness for C6, on the spec's split-string seed scenario: in a packet with
1024 remaining content bits, the window bytes of the text `hel` contain no
zero byte, so the whole window is emitted and the state stays
`READ_SUBSTR_UNTIL_NULL`; the window with the bytes of `lo`, a zero byte and
`wo` has its first zero byte at index 2, so 3 bytes are emitted and the state
becomes `END_STR`. -/
theorem stateReadSubstrUntilNull_spec_witness :
    (stateReadSubstrUntilNull
        { testPos with
          curExpectedPktContentLenBits := 1024
          theState := VmState.READ_SUBSTR_UNTIL_NULL } [104, 101, 108] =
      Except.ok
        ({ testPos with
            curExpectedPktContentLenBits := 1024
            theState := VmState.READ_SUBSTR_UNTIL_NULL
            headOffsetInCurPktBits := 0 + [104, 101, 108].length * 8 },
         [104, 101, 108].length)) ∧
    (stateReadSubstrUntilNull
        { testPos with
          curExpectedPktContentLenBits := 1024
          theState := VmState.READ_SUBSTR_UNTIL_NULL } [108, 111, 0, 119, 111] =
      Except.ok
        ({ testPos with
            curExpectedPktContentLenBits := 1024
            theState := VmState.END_STR
            headOffsetInCurPktBits := 0 + (2 + 1) * 8 }, 2 + 1)) :=
  ⟨(((stateReadSubstrUntilNull_spec
        { testPos with
          curExpectedPktContentLenBits := 1024
          theState := VmState.READ_SUBSTR_UNTIL_NULL } [104, 101, 108]
        (by decide)).2.2.2 (by decide) (by decide) (by decide)).2 (by decide)).1,
    ((stateReadSubstrUntilNull_spec
        { testPos with
          curExpectedPktContentLenBits := 1024
          theState := VmState.READ_SUBSTR_UNTIL_NULL } [108, 111, 0, 119, 111]
        (by decide)).2.2.1 2 (by decide) (by decide)).2 (by decide)⟩

/-! ## C7: byte-order change within a byte -/

/-- C7: in the general (straddling) bit-array read path, when a previous
byte order is recorded and the instruction's byte order differs from it while
the head offset is not byte aligned, the read throws
`ByteOrderChangeWithinByte` carrying the element-sequence bit offset, the
previous byte order and the new byte order, consuming no bits; otherwise it
succeeds, changing nothing but `lastBo`, which becomes the instruction's byte
order. -/
theorem readIntBoCheck_spec (pos : VmPos) (bo : ByteOrder) :
    (∀ e, readIntBoCheck pos bo = Except.error e ↔
      ∃ prevBo, pos.lastBo = some prevBo ∧ pos.headOffsetInCurPktBits % 8 ≠ 0 ∧ bo ≠ prevBo ∧
        e = DecodingError.byteOrderChangeWithinByte pos.headOffsetInElemSeqBits prevBo bo) ∧
    (∀ pos', readIntBoCheck pos bo = Except.ok pos' → pos' = { pos with lastBo := some bo }) := by
  unfold readIntBoCheck
  rcases hlb : pos.lastBo with _ | prevBo
  · constructor
    · intro e
      simp [hlb]
    · intro pos' h
      simp only [Except.ok.injEq] at h
      exact h.symm
  · rw [land_seven]
    dsimp only
    by_cases hh : pos.headOffsetInCurPktBits % 8 = 0
    · rw [if_neg (by simp [hh])]
      constructor
      · intro e
        simp [hh, hlb]
      · intro pos' h
        simp only [Except.ok.injEq] at h
        exact h.symm
    · rw [if_pos (by simp [hh])]
      by_cases hbo : bo = prevBo
      · rw [if_neg (by simp [hbo])]
        constructor
        · intro e
          simp [hh, hbo, hlb]
        · intro pos' h
          simp only [Except.ok.injEq] at h
          exact h.symm
      · rw [if_pos hbo]
        constructor
        · intro e
          constructor
          · intro h
            simp only [Except.error.injEq] at h
            exact ⟨prevBo, rfl, hh, hbo, h.symm⟩
          · rintro ⟨p, hp, -, -, he⟩
            simp only [Option.some.injEq] at hp
            rw [he, ← hp]
        · intro pos' h
          simp at h

/-- Witness for C7: with a previous little-endian read recorded and the head
at bit 3 of a byte, a big-endian read fails with `ByteOrderChangeWithinByte`,
while a little-endian read succeeds and re-records little-endian. -/
theorem readIntBoCheck_spec_witness :
    readIntBoCheck { testPos with headOffsetInCurPktBits := 3, lastBo := some ByteOrder.Little }
        ByteOrder.Big =
      Except.error (DecodingError.byteOrderChangeWithinByte 3 ByteOrder.Little ByteOrder.Big) :=
  ((readIntBoCheck_spec
      { testPos with headOffsetInCurPktBits := 3, lastBo := some ByteOrder.Little }
      ByteOrder.Big).1
    (DecodingError.byteOrderChangeWithinByte 3 ByteOrder.Little ByteOrder.Big)).mpr
    ⟨ByteOrder.Little, rfl, by decide, by decide, by decide⟩

/-! ## C8: head alignment and the padding skip -/

/-- 64-bit subtraction is plain subtraction when it does not underflow. -/
theorem u64sub_eq_sub {a b : Nat} (h : b ≤ a) (ha : a < 2 ^ 64) : u64sub a b = a - b := by
  unfold u64sub
  have h1 : a + 2 ^ 64 - b = 2 ^ 64 + (a - b) := by omega
  rw [h1, Nat.add_mod_left, Nat.mod_eq_of_lt (by omega)]

/-- On success the padding-skip loop advances the head by exactly the bits
remaining to skip. -/
theorem continueSkipContentPaddingBits_ok_head (windows : List Nat) :
    ∀ pos pos' : VmPos, continueSkipContentPaddingBits pos windows = Except.ok pos' →
      pos'.headOffsetInCurPktBits = pos.headOffsetInCurPktBits + pos.remBitsToSkip := by
  induction windows with
  | nil =>
    intro pos pos' h
    unfold continueSkipContentPaddingBits at h
    by_cases h0 : pos.remBitsToSkip = 0
    · rw [if_pos h0] at h
      simp only [Except.ok.injEq] at h
      rw [← h]
      simp [h0]
    · rw [if_neg h0] at h
      simp at h
  | cons w rest ih =>
    intro pos pos' h
    unfold continueSkipContentPaddingBits at h
    by_cases h0 : pos.remBitsToSkip = 0
    · rw [if_pos h0] at h
      simp only [Except.ok.injEq] at h
      rw [← h]
      simp [h0]
    · rw [if_neg h0] at h
      dsimp only at h
      by_cases hc : 1 > pos.remContentBitsInPkt
      · rw [if_pos hc] at h
        simp at h
      · rw [if_neg hc] at h
        have hrec := ih _ _ h
        dsimp only at hrec
        omega

/-- C8: for an alignment `2 ^ a` (a power of two) and a head offset whose
aligned successor stays in 64-bit range, `_alignHead` targets
`ceil(head / align) * align` (as computed by `(head + align - 1) & -align`):
it is a no-op when the head is already aligned, it throws
`CannotDecodeDataBeyondPacketContent` when the padding bits to skip exceed the
remaining packet-content bits, and on success (possibly after several window
refills) the head offset equals `ceil(head / align) * align`. -/
theorem alignHead_spec (pos : VmPos) (a : Nat) (windows : List Nat) (ha : a ≤ 63)
    (hov : pos.headOffsetInCurPktBits + 2 ^ a ≤ 2 ^ 64) :
    (pos.headOffsetInCurPktBits % 2 ^ a = 0 →
      alignHead pos (2 ^ a) windows = Except.ok pos) ∧
    ((pos.headOffsetInCurPktBits + 2 ^ a - 1) / 2 ^ a * 2 ^ a - pos.headOffsetInCurPktBits >
        pos.remContentBitsInPkt →
      alignHead pos (2 ^ a) windows =
        Except.error
          (DecodingError.cannotDecodeDataBeyondPacketContent pos.headOffsetInElemSeqBits
            ((pos.headOffsetInCurPktBits + 2 ^ a - 1) / 2 ^ a * 2 ^ a -
              pos.headOffsetInCurPktBits)
            pos.remContentBitsInPkt)) ∧
    (∀ pos', alignHead pos (2 ^ a) windows = Except.ok pos' →
      pos'.headOffsetInCurPktBits =
        (pos.headOffsetInCurPktBits + 2 ^ a - 1) / 2 ^ a * 2 ^ a) := by
  have hP : 0 < 2 ^ a := Nat.pos_pow_of_pos _ (by norm_num)
  have hM : pos.headOffsetInCurPktBits + 2 ^ a - 1 < 2 ^ 64 := by omega
  have hmodlt : (pos.headOffsetInCurPktBits + 2 ^ a - 1) % 2 ^ a < 2 ^ a := Nat.mod_lt _ hP
  have hland : ((pos.headOffsetInCurPktBits + 2 ^ a - 1) % 2 ^ 64) &&& (2 ^ 64 - 2 ^ a) =
      (pos.headOffsetInCurPktBits + 2 ^ a - 1) / 2 ^ a * 2 ^ a := by
    rw [Nat.mod_eq_of_lt hM, land_two_pow_sub_two_pow a 64 hM (by omega), sub_mod_eq_div_mul,
      Nat.mul_comm]
  have hNdef : (pos.headOffsetInCurPktBits + 2 ^ a - 1) / 2 ^ a * 2 ^ a =
      pos.headOffsetInCurPktBits + 2 ^ a - 1 -
        (pos.headOffsetInCurPktBits + 2 ^ a - 1) % 2 ^ a := by
    rw [sub_mod_eq_div_mul, Nat.mul_comm]
  have hNge : pos.headOffsetInCurPktBits ≤
      (pos.headOffsetInCurPktBits + 2 ^ a - 1) / 2 ^ a * 2 ^ a := by
    rw [hNdef]
    omega
  have hNlt : (pos.headOffsetInCurPktBits + 2 ^ a - 1) / 2 ^ a * 2 ^ a < 2 ^ 64 := by
    rw [hNdef]
    omega
  refine ⟨?_, ?_, ?_⟩
  · intro hal
    have hsplit : pos.headOffsetInCurPktBits + 2 ^ a - 1 =
        pos.headOffsetInCurPktBits + (2 ^ a - 1) := by omega
    have hMmod : (pos.headOffsetInCurPktBits + 2 ^ a - 1) % 2 ^ a = 2 ^ a - 1 := by
      rw [hsplit, Nat.add_mod, hal, Nat.zero_add, Nat.mod_mod_of_dvd _ (dvd_refl _),
        Nat.mod_eq_of_lt (by omega)]
    have hNH : (pos.headOffsetInCurPktBits + 2 ^ a - 1) / 2 ^ a * 2 ^ a =
        pos.headOffsetInCurPktBits := by
      rw [hNdef, hMmod]
      omega
    unfold alignHead
    dsimp only
    rw [hland, hNH, u64sub_eq_sub (le_refl _) (by omega), if_pos (by omega)]
  · intro hover
    unfold alignHead
    dsimp only
    rw [hland, u64sub_eq_sub hNge hNlt, if_neg (by omega), if_pos hover]
  · intro pos' hok
    unfold alignHead at hok
    dsimp only at hok
    rw [hland, u64sub_eq_sub hNge hNlt] at hok
    by_cases h0 : (pos.headOffsetInCurPktBits + 2 ^ a - 1) / 2 ^ a * 2 ^ a -
        pos.headOffsetInCurPktBits = 0
    · rw [if_pos h0] at hok
      simp only [Except.ok.injEq] at hok
      rw [← hok]
      omega
    · rw [if_neg h0] at hok
      by_cases hc : (pos.headOffsetInCurPktBits + 2 ^ a - 1) / 2 ^ a * 2 ^ a -
          pos.headOffsetInCurPktBits > pos.remContentBitsInPkt
      · rw [if_pos hc] at hok
        simp at hok
      · rw [if_neg hc] at hok
        have hloop := continueSkipContentPaddingBits_ok_head windows _ _ hok
        simp only at hloop
        omega

/-- Witness for C8: head at bit 3, alignment 8 (`2 ^ 3`), expected content
length 64 bits, a single 16-bit window: the skip succeeds and the resulting
head offset is the aligned value 8. -/
theorem alignHead_spec_witness :
    ({ testPos with headOffsetInCurPktBits := 8, curExpectedPktContentLenBits := 64 } :
        VmPos).headOffsetInCurPktBits = (3 + 2 ^ 3 - 1) / 2 ^ 3 * 2 ^ 3 :=
  (alignHead_spec
      { testPos with headOffsetInCurPktBits := 3, curExpectedPktContentLenBits := 64 } 3 [16]
      (by decide) (by decide)).2.2
    { testPos with headOffsetInCurPktBits := 8, curExpectedPktContentLenBits := 64 } (by rfl)

/-! ## C9: variant selection -/

/-- C9: a variant-begin execution (after aligning) reads
`savedVals[selPos]`, reinterprets it per the variant flavour, and either
throws the flavour's `InvalidVariantSelectorValue` error — carrying the
element-sequence bit offset and the selector value — without mutating
anything (in particular without pushing a frame) when no option's range set
contains the value, or emits the variant-beginning element recording the
selector value, advances the program counter past the instruction, pushes the
first matching option's subprocedure and sets the state to `EXEC_INSTR`.
Having no matching option is exactly having the value in no option's range
set. -/
theorem execBeginReadVar_spec (flavor : VarSelFlavor) (pos : VmPos) (it : ItInfos) (selPos : Nat)
    (opts : List VarOpt) (f : VmStackFrame) (rest : List VmStackFrame)
    (hstack : pos.stack = f :: rest) :
    let uSelVal := pos.savedVals.getD selPos 0
    let selVal : Int :=
      match flavor with
      | VarSelFlavor.signed => toSigned64 uSelVal
      | VarSelFlavor.unsigned => (uSelVal : Int)
    (procForSelVal opts selVal = none →
      execBeginReadVar flavor pos it selPos opts =
        (some
          (match flavor with
           | VarSelFlavor.signed =>
             DecodingError.invalidVariantSignedSelectorValue pos.headOffsetInElemSeqBits selVal
           | VarSelFlavor.unsigned =>
             DecodingError.invalidVariantUnsignedSelectorValue pos.headOffsetInElemSeqBits
               uSelVal),
         pos, it)) ∧
    (∀ procId, procForSelVal opts selVal = some procId →
      execBeginReadVar flavor pos it selPos opts =
        (none,
         { pos with
            elems := { pos.elems with varSelVal := selVal }
            stack :=
              { procId := procId, it := 0, parentState := pos.theState, remElems := 0 } ::
                { f with it := f.it + 1 } :: rest
            theState := VmState.EXEC_INSTR },
         updateIt it pos.headOffsetInElemSeqBits)) ∧
    (procForSelVal opts selVal = none ↔
      ∀ o ∈ opts, rangeSetContains o.ranges selVal = false) := by
  dsimp only
  refine ⟨?_, ?_, ?_⟩
  · intro hnone
    unfold execBeginReadVar
    rcases flavor <;> dsimp only at hnone ⊢ <;> rw [hnone]
  · intro procId hsome
    unfold execBeginReadVar
    rcases flavor <;> dsimp only at hsome ⊢ <;> rw [hsome] <;>
      simp only [VmPos.gotoNextInstr, VmPos.stackPush, updateItCurOffset, updateIt,
        VmPos.headOffsetInElemSeqBits, hstack]
  · rcases flavor <;> dsimp only <;> unfold procForSelVal <;>
      rw [Option.map_eq_none', List.find?_eq_none] <;> simp

/-- Witness for C9, on the spec's variant seed scenario: unsigned selector
saved value 7, options with ranges `[0, 5]` (subprocedure 10) and `[6, 10]`
(subprocedure 20): the second option is selected, its subprocedure pushed and
the outer program counter advanced from 2 to 3. -/
theorem execBeginReadVar_spec_witness :
    execBeginReadVar VarSelFlavor.unsigned
        { testPos with
          savedVals := [7]
          theState := VmState.EXEC_INSTR
          stack := [{ procId := 5, it := 2, parentState := VmState.BEGIN_PKT_CONTENT,
                      remElems := 0 }] }
        { mark := 4, offset := 16 } 0
        [{ ranges := [(0, 5)], procId := 10 }, { ranges := [(6, 10)], procId := 20 }] =
      (none,
       { testPos with
          savedVals := [7]
          theState := VmState.EXEC_INSTR
          elems := { testPos.elems with varSelVal := ((7 : Nat) : Int) }
          stack :=
            [{ procId := 20, it := 0, parentState := VmState.EXEC_INSTR, remElems := 0 },
             { procId := 5, it := 3, parentState := VmState.BEGIN_PKT_CONTENT, remElems := 0 }] },
       updateIt { mark := 4, offset := 16 } 0) := by
  have h :=
    (execBeginReadVar_spec VarSelFlavor.unsigned
        { testPos with
          savedVals := [7]
          theState := VmState.EXEC_INSTR
          stack := [{ procId := 5, it := 2, parentState := VmState.BEGIN_PKT_CONTENT,
                      remElems := 0 }] }
        { mark := 4, offset := 16 } 0
        [{ ranges := [(0, 5)], procId := 10 }, { ranges := [(6, 10)], procId := 20 }]
        { procId := 5, it := 2, parentState := VmState.BEGIN_PKT_CONTENT, remElems := 0 } []
        rfl).2.1 20 (by decide)
  rw [h]
  decide

/-! ## C10: resetForNewPkt frame effect -/

/-- C10: `VmPos::resetForNewPkt` resets exactly the head offset (to 0), the
state (to `BEGIN_PKT`), `lastBo` (to none), the current data-stream and
event-record procedure pointers (to null), the expected total and content
lengths (to the `UNSET` sentinel), the stack (to empty), the default clock
value (to 0) and every saved-value slot (to the `UNSET` sentinel), and leaves
`curPktOffsetInElemSeqBits`, `lastIntVal`, `curId` and the element scratch
space (as well as every other field) unchanged; in particular the
element-sequence offset of the new packet's beginning is preserved. -/
theorem resetForNewPkt_spec (pos : VmPos) :
    (pos.resetForNewPkt).headOffsetInCurPktBits = 0 ∧
    (pos.resetForNewPkt).theState = VmState.BEGIN_PKT ∧
    (pos.resetForNewPkt).lastBo = none ∧
    (pos.resetForNewPkt).curDsPktProc = none ∧
    (pos.resetForNewPkt).curErProc = none ∧
    (pos.resetForNewPkt).curExpectedPktTotalLenBits = SIZE_UNSET ∧
    (pos.resetForNewPkt).curExpectedPktContentLenBits = SIZE_UNSET ∧
    (pos.resetForNewPkt).stack = [] ∧
    (pos.resetForNewPkt).defClkVal = 0 ∧
    (pos.resetForNewPkt).savedVals = List.replicate pos.savedVals.length SAVED_VAL_UNSET ∧
    (pos.resetForNewPkt).curPktOffsetInElemSeqBits = pos.curPktOffsetInElemSeqBits ∧
    (pos.resetForNewPkt).lastIntVal = pos.lastIntVal ∧
    (pos.resetForNewPkt).curId = pos.curId ∧
    (pos.resetForNewPkt).elems = pos.elems ∧
    (pos.resetForNewPkt).remBitsToSkip = pos.remBitsToSkip ∧
    (pos.resetForNewPkt).postSkipBitsState = pos.postSkipBitsState ∧
    (pos.resetForNewPkt).postEndStrState = pos.postEndStrState ∧
    (pos.resetForNewPkt).uuid = pos.uuid ∧
    (pos.resetForNewPkt).pktProc = pos.pktProc ∧
    (pos.resetForNewPkt).headOffsetInElemSeqBits = pos.curPktOffsetInElemSeqBits := by
  unfold VmPos.resetForNewPkt VmPos.headOffsetInElemSeqBits
  refine ⟨rfl, rfl, rfl, rfl, rfl, rfl, rfl, rfl, rfl, ?_, rfl, rfl, rfl, rfl, rfl, rfl, rfl,
    rfl, rfl, ?_⟩
  · exact List.map_const' _ _
  · simp

end Yactfr
